import Mathlib

/-
Verification development for the cerebras-code-mcp server
(src/mcp-server-sdk.js).  Strings are modelled as `List Char`; JavaScript
string primitives (trim, split, join, replace, regexes used by the code)
are given explicit executable models.  All definitions are translated from
the source file; external library calls (the npm `diff` package's
`createPatch`, Node's `path` module) are modelled after their documented
POSIX/jsdiff semantics at the points the source relies on.
-/

namespace CerebrasMcp

/-- Character list of a string literal, for readability of statements. -/
def strL (s : String) : List Char := s.data

/-- The backtick character (code point 96). -/
def tick : Char := Char.ofNat 96

/-- Whitespace characters removed by JavaScript `String.prototype.trim`
(the ASCII subset that can occur in our inputs). -/
def isWS (c : Char) : Bool :=
  c = ' ' || c = '\t' || c = '\n' || c = '\r' || c = Char.ofNat 11 || c = Char.ofNat 12

/-- ASCII letter test, the `[a-zA-Z]` character class. -/
def isAlphaC (c : Char) : Bool :=
  ('a' ≤ c && c ≤ 'z') || ('A' ≤ c && c ≤ 'Z')

/-- ASCII digit test, the `\d` character class. -/
def isDigitC (c : Char) : Bool :=
  '0' ≤ c && c ≤ '9'

/-- Character class `[a-zA-Z#]` used by the language-tag regex
`/^[a-zA-Z#]+$/` in `cleanCodeResponse`. -/
def isLangTagC (c : Char) : Bool :=
  isAlphaC c || c = '#'

/-- Model of JavaScript `String.prototype.trim`. -/
def jsTrim (s : List Char) : List Char :=
  ((s.dropWhile isWS).reverse.dropWhile isWS).reverse

/-- Model of JavaScript `String.prototype.split` with a one-character
separator: `"".split(sep) = [""]`, separators delimit possibly empty
fields. -/
def splitOnC (sep : Char) : List Char → List (List Char)
  | [] => [[]]
  | c :: cs =>
    if c = sep then [] :: splitOnC sep cs
    else
      match splitOnC sep cs with
      | [] => [[c]]
      | l :: ls => (c :: l) :: ls

/-- Model of JavaScript `Array.prototype.join` with a one-character
separator. -/
def joinC (sep : Char) : List (List Char) → List Char
  | [] => []
  | [l] => l
  | l :: ls => l ++ sep :: joinC sep ls

/-- Split on newline, as `String.split('\n')` does. -/
def splitNl (s : List Char) : List (List Char) := splitOnC '\n' s

/-- Join with newline, as `Array.join('\n')` does. -/
def joinNl (ls : List (List Char)) : List Char := joinC '\n' ls

/-- Whether a character list contains no newline. -/
def noNl (s : List Char) : Bool := s.all (fun c => !(c = '\n'))

/-- Does the list start with three backticks (the fence delimiter of the
regexes in `cleanCodeResponse`)? -/
def startsWith3 (s : List Char) : Bool :=
  match s with
  | a :: b :: c :: _ => a = tick && b = tick && c = tick
  | _ => false

/-- Generic prefix test on character lists (JavaScript `startsWith`). -/
def startsWithStr : List Char → List Char → Bool
  | _, [] => true
  | [], _ :: _ => false
  | c :: cs, p :: ps => c = p && startsWithStr cs ps

/-- Drop a single leading newline if present: models the `\n?` part of the
fence regexes. -/
def dropOptNl (s : List Char) : List Char :=
  match s with
  | [] => []
  | c :: r => if c = '\n' then r else c :: r

theorem dropOptNl_length (s : List Char) :
    (dropOptNl s).length ≤ s.length := by
  cases s with
  | nil => simp [dropOptNl]
  | cons c r =>
    by_cases h : c = '\n' <;> simp [dropOptNl, h]

/-- Consume the `[a-zA-Z]*\n?` part of the fence-opening regex
`/\x60\x60\x60[a-zA-Z]*\n?/`. -/
def afterOpenFence (s : List Char) : List Char :=
  dropOptNl (s.dropWhile isAlphaC)

theorem dropWhile_length_le (p : Char → Bool) :
    ∀ s : List Char, (s.dropWhile p).length ≤ s.length := by
  intro s
  induction s with
  | nil => simp
  | cons c cs ih =>
    by_cases h : p c
    · simp only [List.dropWhile, h]
      exact Nat.le_succ_of_le ih
    · simp [List.dropWhile, h]

theorem afterOpenFence_length (s : List Char) :
    (afterOpenFence s).length ≤ s.length :=
  le_trans (dropOptNl_length _) (dropWhile_length_le isAlphaC s)

/-- Split at the first occurrence of a triple backtick: returns the text
before it and the text after it.  Models the lazy capture
`([\s\S]*?)` followed by the closing fence in the code-block regex of
`cleanCodeResponse` (src/mcp-server-sdk.js line 41). -/
def splitTicks : List Char → Option (List Char × List Char)
  | [] => none
  | c :: cs =>
    if startsWith3 (c :: cs) then some ([], cs.drop 2)
    else
      match splitTicks cs with
      | some (b, a) => some (c :: b, a)
      | none => none

/-- First capture group of `/\x60\x60\x60[a-zA-Z]*\n?([\s\S]*?)\x60\x60\x60/`
when scanned over the input, i.e. the raw body of the first complete
fenced code block: the regex engine tries each start position in order;
a position matches when it starts with a fence and a closing fence
exists later. -/
def firstCapture : List Char → Option (List Char)
  | [] => none
  | c :: cs =>
    if startsWith3 (c :: cs) then
      match splitTicks (afterOpenFence (cs.drop 2)) with
      | some (cap, _) => some cap
      | none => firstCapture cs
    else firstCapture cs

/-- Fuel-indexed scan for the global replacement of
`/\x60\x60\x60[a-zA-Z]*\n?/` by the empty string (first replace of the
fallback branch of `cleanCodeResponse`).  Each step consumes at least one
character, so fuel `length + 1` never runs out. -/
def replaceFenceOpenF : Nat → List Char → List Char
  | 0, s => s
  | _, [] => []
  | f + 1, c :: cs =>
    if startsWith3 (c :: cs) then replaceFenceOpenF f (afterOpenFence (cs.drop 2))
    else c :: replaceFenceOpenF f cs

/-- Global replacement of `/\x60\x60\x60[a-zA-Z]*\n?/` by the empty
string. -/
def replaceFenceOpen (s : List Char) : List Char :=
  replaceFenceOpenF (s.length + 1) s

/-- Fuel-indexed scan for the global replacement of `/\x60\x60\x60\n?/` by
the empty string (second replace of the fallback branch of
`cleanCodeResponse`). -/
def replaceFenceBareF : Nat → List Char → List Char
  | 0, s => s
  | _, [] => []
  | f + 1, c :: cs =>
    if startsWith3 (c :: cs) then replaceFenceBareF f (dropOptNl (cs.drop 2))
    else c :: replaceFenceBareF f cs

/-- Global replacement of `/\x60\x60\x60\n?/` by the empty string. -/
def replaceFenceBare (s : List Char) : List Char :=
  replaceFenceBareF (s.length + 1) s

/-- The test `/^[a-zA-Z#]+$/.test(x)`: a non-empty run of letters or
hash signs. -/
def isLangTag (l : List Char) : Bool :=
  !(l.isEmpty) && l.all isLangTagC

/-- Shared tail of both branches of `cleanCodeResponse`: split into lines;
if the first line, trimmed, is a bare language tag, drop it and re-trim
(`lines.shift(); code = lines.join('\n').trim()`), else return the input
unchanged. -/
def stripLangTag (code : List Char) : List Char :=
  match splitNl code with
  | [] => code
  | l0 :: rest =>
    if isLangTag (jsTrim l0) then jsTrim (joinNl rest) else code

/-- Model of `cleanCodeResponse` (src/mcp-server-sdk.js lines 37-76): a
falsy (empty) response is returned as-is; if a fenced code block is found,
its first capture is trimmed and a leading bare language-tag line is
dropped; otherwise all fence openings are stripped globally, the result
trimmed, and a leading bare language-tag line dropped. -/
def cleanCodeResponse (s : List Char) : List Char :=
  if s = [] then s
  else
    match firstCapture s with
    | some cap => stripLangTag (jsTrim cap)
    | none => stripLangTag (jsTrim (replaceFenceBare (replaceFenceOpen s)))

/-- Decimal digit character for a value below ten. -/
def digitChar (n : Nat) : Char := Char.ofNat (48 + n)

/-- Fuel-indexed decimal rendering; dividing by ten each step, fuel
`n + 1` never runs out. -/
def natDigitsF : Nat → Nat → List Char
  | 0, _ => []
  | f + 1, n =>
    if n < 10 then [digitChar n]
    else natDigitsF f (n / 10) ++ [digitChar (n % 10)]

/-- Decimal rendering of a natural number (the template-literal rendering
`${n}` of a non-negative integer in JavaScript). -/
def natDigits (n : Nat) : List Char := natDigitsF (n + 1) n

/-- Numeric value of a decimal digit string (`parseInt` on an all-digit
string). -/
def digitsToNat (l : List Char) : Nat :=
  l.foldl (fun n c => n * 10 + (c.toNat - 48)) 0

/-- A non-empty all-digit character run, i.e. a string matched by
`(\d+)`. -/
def isDigits (l : List Char) : Bool :=
  !(l.isEmpty) && l.all isDigitC

/-- Tokenization used by jsdiff `diffLines`: split into lines, each token
keeping its trailing newline; the empty string yields no tokens. -/
def linesKeepNl (s : List Char) : List (List Char) :=
  go s []
where
  go : List Char → List Char → List (List Char)
    | [], acc => if acc = [] then [] else [acc.reverse]
    | c :: r, acc =>
      if c = '\n' then (('\n' :: acc).reverse) :: go r []
      else go r (c :: acc)

/-- One line-level edit operation. -/
inductive DOp where
  | keep : List Char → DOp
  | del : List Char → DOp
  | add : List Char → DOp
deriving DecidableEq, BEq

/-- Number of non-kept operations: the cost minimised by the diff. -/
def opsCost (l : List DOp) : Nat :=
  (l.filter (fun o => match o with | DOp.keep _ => false | _ => true)).length

/-- Fuel-indexed minimal line-edit script; each step shortens one of the
two lists, so fuel `length + length + 1` never runs out. -/
def diffOpsF : Nat → List (List Char) → List (List Char) → List DOp
  | 0, _, _ => []
  | _, [], [] => []
  | f + 1, [], n :: ns => DOp.add n :: diffOpsF f [] ns
  | f + 1, o :: os, [] => DOp.del o :: diffOpsF f os []
  | f + 1, o :: os, n :: ns =>
    if o = n then DOp.keep o :: diffOpsF f os ns
    else
      let d1 := DOp.del o :: diffOpsF f os (n :: ns)
      let d2 := DOp.add n :: diffOpsF f (o :: os) ns
      if opsCost d2 < opsCost d1 then d2 else d1

/-- Minimal line-edit script between two token lists (the role of jsdiff's
Myers diff inside `createPatch`): keep equal heads; otherwise take the
cheaper of delete-first and insert-first, preferring deletions on ties as
jsdiff does. -/
def diffOps (os ns : List (List Char)) : List DOp :=
  diffOpsF (os.length + ns.length + 1) os ns

/-- Kind of a diff part (jsdiff change object): context, added or
removed. -/
inductive PType where
  | ctx : PType
  | add : PType
  | del : PType
deriving DecidableEq, BEq

/-- A diff part: a maximal run of operations of one kind, holding its
lines with trailing newlines stripped (`value.replace(/\n$/,'').split('\n')`
in jsdiff's `structuredPatch`). -/
structure Part where
  ptype : PType
  plines : List (List Char)
deriving DecidableEq, BEq

/-- Strip one trailing newline from a token. -/
def stripNl (l : List Char) : List Char :=
  if l.getLast? = some '\n' then l.dropLast else l

/-- Kind of an edit operation. -/
def opKind : DOp → PType
  | DOp.keep _ => PType.ctx
  | DOp.del _ => PType.del
  | DOp.add _ => PType.add

/-- Line carried by an edit operation. -/
def opLine : DOp → List Char
  | DOp.keep l => l
  | DOp.del l => l
  | DOp.add l => l

/-- Group consecutive operations of the same kind into parts, stripping
the trailing newline of each token. -/
def groupOps : List DOp → List Part
  | [] => []
  | op :: rest =>
    match groupOps rest with
    | [] => [⟨opKind op, [stripNl (opLine op)]⟩]
    | p :: ps =>
      if p.ptype = opKind op then ⟨p.ptype, stripNl (opLine op) :: p.plines⟩ :: ps
      else ⟨opKind op, [stripNl (opLine op)]⟩ :: p :: ps

/-- A structured hunk as produced by jsdiff `structuredPatch`. -/
structure Hunk where
  oldStart : Nat
  oldLines : Nat
  newStart : Nat
  newLines : Nat
  lines : List (List Char)
deriving DecidableEq, BEq

/-- Context rendering: prefix each line with one space. -/
def contextLines (ls : List (List Char)) : List (List Char) :=
  ls.map (fun l => ' ' :: l)

/-- Take the last `n` elements (`Array.prototype.slice(-n)`). -/
def takeLast (n : Nat) (l : List (List Char)) : List (List Char) :=
  l.drop (l.length - n)

/-- Insert an element at an index (`Array.prototype.splice(i, 0, x)`). -/
def insertAt (i : Nat) (x : List Char) : List (List Char) → List (List Char)
  | l =>
    match i, l with
    | 0, l => x :: l
    | _ + 1, [] => [x]
    | n + 1, y :: ys => y :: insertAt n x ys

/-- The marker jsdiff appends when an input lacks a final newline. -/
def noNlMarker : List Char := strL "\\ No newline at end of file"

/-- End-of-file adjustment of jsdiff `structuredPatch` applied to the
line array of the final hunk. -/
def eofAdjust (oldEOF newEOF oldNonempty : Bool) (ctxLinesLen hunkOldLines : Nat)
    (cur : List (List Char)) : List (List Char) :=
  let noNlBeforeAdds := ctxLinesLen = 0 && decide (cur.length > hunkOldLines)
  let cur1 :=
    if !oldEOF && noNlBeforeAdds && oldNonempty then insertAt hunkOldLines noNlMarker cur
    else cur
  if (!oldEOF && !noNlBeforeAdds) || !newEOF then cur1 ++ [noNlMarker] else cur1

/-- Hunk-building loop of jsdiff `structuredPatch` with the default
context of 4, iterating over the parts (with the sentinel empty context
part appended by jsdiff).  State: current part index, previous part's
lines, pending hunk start positions (0 = unset, as jsdiff's falsy check
relies on), pending hunk lines, current old/new line numbers, and the
accumulated hunks. -/
def buildLoop (total : Nat) (oldEOF newEOF oldNonempty : Bool) :
    List Part → Nat → Option (List (List Char)) → Nat → Nat →
    List (List Char) → Nat → Nat → List Hunk → List Hunk
  | [], _, _, _, _, _, _, _, hunks => hunks
  | p :: rest, i, prev, oRS, nRS, curRange, oldLine, newLine, hunks =>
    match p.ptype with
    | PType.add =>
      let st :=
        if oRS = 0 then
          match prev with
          | some pl =>
            let c := contextLines (takeLast 4 pl)
            (oldLine - c.length, newLine - c.length, c)
          | none => (oldLine, newLine, ([] : List (List Char)))
        else (oRS, nRS, curRange)
      buildLoop total oldEOF newEOF oldNonempty rest (i + 1) (some p.plines)
        st.1 st.2.1 (st.2.2 ++ p.plines.map (fun l => '+' :: l))
        oldLine (newLine + p.plines.length) hunks
    | PType.del =>
      let st :=
        if oRS = 0 then
          match prev with
          | some pl =>
            let c := contextLines (takeLast 4 pl)
            (oldLine - c.length, newLine - c.length, c)
          | none => (oldLine, newLine, ([] : List (List Char)))
        else (oRS, nRS, curRange)
      buildLoop total oldEOF newEOF oldNonempty rest (i + 1) (some p.plines)
        st.1 st.2.1 (st.2.2 ++ p.plines.map (fun l => '-' :: l))
        (oldLine + p.plines.length) newLine hunks
    | PType.ctx =>
      if oRS ≠ 0 then
        if p.plines.length ≤ 8 && decide (i + 2 < total) then
          buildLoop total oldEOF newEOF oldNonempty rest (i + 1) (some p.plines)
            oRS nRS (curRange ++ contextLines p.plines)
            (oldLine + p.plines.length) (newLine + p.plines.length) hunks
        else
          let csize := min p.plines.length 4
          let cur2 := curRange ++ contextLines (p.plines.take csize)
          let oldL := oldLine - oRS + csize
          let newL := newLine - nRS + csize
          let cur3 :=
            if decide (i + 2 ≥ total) && p.plines.length ≤ 4 then
              eofAdjust oldEOF newEOF oldNonempty p.plines.length oldL cur2
            else cur2
          buildLoop total oldEOF newEOF oldNonempty rest (i + 1) (some p.plines)
            0 0 [] (oldLine + p.plines.length) (newLine + p.plines.length)
            (hunks ++ [⟨oRS, oldL, nRS, newL, cur3⟩])
      else
        buildLoop total oldEOF newEOF oldNonempty rest (i + 1) (some p.plines)
          oRS nRS curRange (oldLine + p.plines.length) (newLine + p.plines.length) hunks

/-- Does the string end with a newline (`/\n$/.test(s)`)? -/
def endsWithNl (s : List Char) : Bool := s.getLast? = some '\n'

/-- Hunks of jsdiff `structuredPatch(fileName, fileName, oldStr, newStr)`
with default options (context 4). -/
def structuredHunks (oldStr newStr : List Char) : List Hunk :=
  let parts := groupOps (diffOps (linesKeepNl oldStr) (linesKeepNl newStr)) ++ [⟨PType.ctx, []⟩]
  buildLoop parts.length (endsWithNl oldStr) (endsWithNl newStr)
    (decide (oldStr ≠ [])) parts 0 none 0 0 [] 1 1 []

/-- The separator line of jsdiff `formatPatch` (67 equals signs). -/
def eqLine : List Char := List.replicate 67 '='

/-- Header line of a hunk as rendered by jsdiff `formatPatch`. -/
def hunkHeaderLine (h : Hunk) : List Char :=
  strL "@@ -" ++ natDigits h.oldStart ++ ',' :: natDigits h.oldLines ++
  strL " +" ++ natDigits h.newStart ++ ',' :: natDigits h.newLines ++ strL " @@"

/-- All lines of the patch produced by jsdiff
`createPatch(fileName, oldStr, newStr, oldHeader, newHeader)`: the four
header lines, then each hunk's header and lines; `formatPatch` joins
these with newlines and appends a final newline (modelled by the final
empty line). -/
def createPatchLines (fileName oldStr newStr oldHeader newHeader : List Char) :
    List (List Char) :=
  [strL "Index: " ++ fileName, eqLine,
   strL "--- " ++ fileName ++ '\t' :: oldHeader,
   strL "+++ " ++ fileName ++ '\t' :: newHeader] ++
  (structuredHunks oldStr newStr).flatMap (fun h => hunkHeaderLine h :: h.lines) ++ [[]]

/-- The patch string of jsdiff `createPatch`. -/
def createPatch (fileName oldStr newStr oldHeader newHeader : List Char) : List Char :=
  joinNl (createPatchLines fileName oldStr newStr oldHeader newHeader)

/-- Parse of the hunk-header regex
`/^@@ -(\d+),?(\d+)? \+(\d+),?(\d+)? @@$/` used by `generateGitDiff`
(src/mcp-server-sdk.js line 148); returns the four captures, the optional
counts as `Option`. -/
def parseHunkHeader (l : List Char) :
    Option (List Char × Option (List Char) × List Char × Option (List Char)) :=
  match l with
  | a :: b :: c :: d :: r =>
    if a = '@' && b = '@' && c = ' ' && d = '-' then
      let d1 := r.takeWhile isDigitC
      let r1 := r.dropWhile isDigitC
      if d1 = [] then none
      else
        let r2 := match r1 with | ',' :: rr => rr | _ => r1
        let d2 := r2.takeWhile isDigitC
        let r3 := r2.dropWhile isDigitC
        match r3 with
        | ' ' :: '+' :: r4 =>
          let d3 := r4.takeWhile isDigitC
          let r5 := r4.dropWhile isDigitC
          if d3 = [] then none
          else
            let r6 := match r5 with | ',' :: rr => rr | _ => r5
            let d4 := r6.takeWhile isDigitC
            let r7 := r6.dropWhile isDigitC
            match r7 with
            | ' ' :: '@' :: '@' :: [] =>
              some (d1, (if d2 = [] then none else some d2),
                    d3, (if d4 = [] then none else some d4))
            | _ => none
        | _ => none
    else none
  | _ => none

/-- Render a hunk header from its four captured fields, counts rendered
with a comma exactly when present (the truthiness checks on the captures
in `generateGitDiff`). -/
def mkHunkHeaderRaw (s1 : List Char) (s2 : Option (List Char))
    (s3 : List Char) (s4 : Option (List Char)) : List Char :=
  strL "@@ -" ++ s1 ++ (match s2 with | some d => ',' :: d | none => []) ++
  strL " +" ++ s3 ++ (match s4 with | some d => ',' :: d | none => []) ++ strL " @@"

/-- The per-line correction of `generateGitDiff` (lines 147-156): a line
matching the hunk-header regex is re-rendered with both start numbers
increased by 4 (`parseInt(start) + 4`) and the count captures kept
verbatim; any other line is unchanged. -/
def fixLine (l : List Char) : List Char :=
  match parseHunkHeader l with
  | some (d1, d2, d3, d4) =>
    mkHunkHeaderRaw (natDigits (digitsToNat d1 + 4)) d2
      (natDigits (digitsToNat d3 + 4)) d4
  | none => l

/-- The patch clean-up loop of `generateGitDiff` (lines 136-160): drop the
first line if it starts with `diff --git`, and pass every line through the
hunk-header correction. -/
def processPatchLines : List (List Char) → List (List Char)
  | [] => []
  | l0 :: rest =>
    (if startsWithStr l0 (strL "diff --git") then [] else [fixLine l0]) ++ rest.map fixLine

/-- Last path component, `filePath.split('/').pop()`. -/
def lastComponent (fp : List Char) : List Char :=
  (splitOnC '/' fp).getLastD []

/-- The creation-branch diff of `generateGitDiff` (lines 112-129): a
synthetic git-style diff with header `@@ -0,0 +1,<lineCount> @@` and every
line of the new content prefixed with `+`. -/
def creationDiff (newContent fp : List Char) : List Char :=
  let newLines := splitNl newContent
  let fileName := lastComponent fp
  joinNl ([strL "diff --git a/" ++ fileName ++ strL " b/" ++ fileName,
           strL "new file mode 100644",
           strL "--- /dev/null",
           strL "+++ b/" ++ fileName,
           strL "@@ -0,0 +1," ++ natDigits newLines.length ++ strL " @@"] ++
          newLines.map (fun l => '+' :: l))

/-- Model of `generateGitDiff(oldContent, newContent, filePath)`
(src/mcp-server-sdk.js lines 108-163).  `none`/empty model the falsy
JavaScript values: a falsy new content yields no diff; a falsy old content
takes the creation branch; otherwise the jsdiff patch is computed and
cleaned up line by line. -/
def generateGitDiff (oldContent : Option (List Char)) (newContent fp : List Char) :
    Option (List Char) :=
  if newContent = [] then none
  else
    match oldContent with
    | none => some (creationDiff newContent fp)
    | some o =>
      if o = [] then some (creationDiff newContent fp)
      else
        let fileName := lastComponent fp
        some (joinNl (processPatchLines (splitNl
          (createPatch fileName o newContent (strL "a/" ++ fileName) (strL "b/" ++ fileName)))))

/-- POSIX absolute-path test (`path.isAbsolute`): starts with a slash. -/
def isAbsolute (p : List Char) : Bool := p.head? = some '/'

/-- One step of POSIX path normalization over a reversed component stack:
empty and `.` components are dropped, `..` pops (at the root it is
dropped), anything else is pushed. -/
def normStep (st : List (List Char)) (comp : List Char) : List (List Char) :=
  if comp = [] || comp = ['.'] then st
  else if comp = ['.', '.'] then st.tail
  else comp :: st

/-- POSIX normalization of an absolute path (Node `path.posix.normalize`
restricted to absolute inputs, as `path.join`/`path.resolve` apply it
here): collapse slashes, resolve `.` and `..`. -/
def normalizeAbs (p : List Char) : List Char :=
  '/' :: joinC '/' (((splitOnC '/' p).foldl normStep []).reverse)

/-- Node `path.join(base, p)` for an absolute `base` (the only use in the
source: `path.join(process.cwd(), filePath)`). -/
def pathJoin (base p : List Char) : List Char :=
  normalizeAbs (base ++ '/' :: p)

/-- Node `path.resolve(p)` against an absolute working directory: an
absolute path is normalized as-is, anything else (including `~`-prefixed
strings, which `path.resolve` does not expand) is resolved against
`cwd`. -/
def pathResolve1 (cwd p : List Char) : List Char :=
  if isAbsolute p then normalizeAbs p else normalizeAbs (cwd ++ '/' :: p)

/-- Path-normalization step of `readFileContent` (src/mcp-server-sdk.js
lines 206-225): an absolute path is used as-is; a path starting with `~`
has that first character replaced by the home directory
(`filePath.replace('~', process.env.HOME)`); anything else is joined onto
the working directory. -/
def readFileContentResolve (filePath home cwd : List Char) : List Char :=
  if isAbsolute filePath then filePath
  else if filePath.head? = some '~' then home ++ filePath.drop 1
  else pathJoin cwd filePath

/-- Path-normalization step of `writeFileContent` (src/mcp-server-sdk.js
lines 238-257), duplicated verbatim from `readFileContent` in the
source. -/
def writeFileContentResolve (filePath home cwd : List Char) : List Char :=
  if isAbsolute filePath then filePath
  else if filePath.head? = some '~' then home ++ filePath.drop 1
  else pathJoin cwd filePath

/-- The context-file deduplication of `callCerebras`/`callOpenRouter`
(src/mcp-server-sdk.js lines 454-460 and 326-332): keep the context files
whose `path.resolve` differs from the output file's `path.resolve`. -/
def filterContextFiles (contextFiles : List (List Char))
    (outputFile cwd : List Char) : List (List Char) :=
  contextFiles.filter (fun f => !(pathResolve1 cwd f == pathResolve1 cwd outputFile))

/-- Outcome of one HTTP completion attempt (the settled promise of the
request): the raw response text, or a rejection message. -/
inductive Outcome where
  | ok : List Char → Outcome
  | err : List Char → Outcome
deriving DecidableEq, BEq

/-- Which API keys are configured. -/
structure ProviderCfg where
  cerebrasKey : Bool
  openRouterKey : Bool
deriving DecidableEq, BEq

/-- A provider attempt in the observable trace. -/
inductive Att where
  | primary : Att
  | secondary : Att
deriving DecidableEq, BEq

/-- Model of `callOpenRouter` (src/mcp-server-sdk.js lines 313-437) at the
attempt level: with no key configured it throws before any attempt (the
synchronous throw is the only one wrapped by its try/catch); otherwise it
performs exactly one HTTP attempt whose settled outcome comes from the
oracle `sec` at the next attempt index, the successful response passing
through `cleanCodeResponse`.  Returns the result, the attempts made and
the next oracle index. -/
def callOpenRouterM (orKey : Bool) (sec : Nat → Outcome) (k : Nat) :
    Except (List Char) (List Char) × List Att × Nat :=
  if !orKey then
    (Except.error (strL "OpenRouter API call failed: No OpenRouter API key available. Set OPENROUTER_API_KEY environment variable."),
     [], k)
  else
    match sec k with
    | Outcome.ok s => (Except.ok (cleanCodeResponse s), [Att.secondary], k + 1)
    | Outcome.err m => (Except.error m, [Att.secondary], k + 1)

/-- Model of `callCerebras` (src/mcp-server-sdk.js lines 440-595) at the
attempt level.  `prim` is the settled outcome the primary HTTP attempt
would have; `sec` gives the outcomes of successive secondary attempts.
The body sits in an outer try whose catch (line 579) also receives the
errors thrown by the inner catch (line 563), so a failed fallback attempt
is retried once more by the outer catch. -/
def callCerebrasM (cfg : ProviderCfg) (prim : Outcome) (sec : Nat → Outcome) :
    Except (List Char) (List Char) × List Att :=
  if !cfg.cerebrasKey then
    match callOpenRouterM cfg.openRouterKey sec 0 with
    | (Except.ok s, t, _) => (Except.ok s, t)
    | (Except.error e, t, k) =>
      if !cfg.openRouterKey then
        (Except.error (strL "Cerebras setup failed and no OpenRouter fallback available. Error: " ++ e), t)
      else
        match callOpenRouterM cfg.openRouterKey sec k with
        | (Except.ok s, t2, _) => (Except.ok s, t ++ t2)
        | (Except.error e2, t2, _) =>
          (Except.error (strL "Both Cerebras and OpenRouter failed. Setup error: " ++ e ++
            strL ". OpenRouter error: " ++ e2), t ++ t2)
  else
    match prim with
    | Outcome.ok s => (Except.ok (cleanCodeResponse s), [Att.primary])
    | Outcome.err m =>
      if !cfg.openRouterKey then
        (Except.error (strL "Cerebras setup failed and no OpenRouter fallback available. Error: Cerebras failed and no OpenRouter fallback available. Cerebras error: " ++ m),
         [Att.primary])
      else
        match callOpenRouterM cfg.openRouterKey sec 0 with
        | (Except.ok s, t, _) => (Except.ok s, Att.primary :: t)
        | (Except.error e2, t, k) =>
          let eBoth := strL "Both Cerebras and OpenRouter failed. Cerebras error: " ++ m ++
            strL ". OpenRouter error: " ++ e2
          match callOpenRouterM cfg.openRouterKey sec k with
          | (Except.ok s, t2, _) => (Except.ok s, Att.primary :: (t ++ t2))
          | (Except.error e3, t2, _) =>
            (Except.error (strL "Both Cerebras and OpenRouter failed. Setup error: " ++ eBoth ++
              strL ". OpenRouter error: " ++ e3), Att.primary :: (t ++ t2))

/-- Observable side effects of one `write` tool call. -/
inductive Eff where
  | readTarget : Eff
  | provider : Eff
  | writeTarget : Eff
deriving DecidableEq, BEq

/-- JavaScript falsiness of an optional string argument: absent or
empty. -/
def jsFalsyS (o : Option (List Char)) : Bool :=
  o = none || o = some []

/-- One line of the Cursor-friendly presentation transform of the handler
(lines 675-679 and 691-695): the four sequential anchored global replaces
rewrite the prefix of a line; the four patterns are mutually exclusive. -/
def friendlyLine (l : List Char) : List Char :=
  if startsWithStr l (strL "@@ ") then strL "🔍 " ++ l.drop 3
  else if startsWithStr l (strL "- ") then strL "❌ " ++ l.drop 2
  else if startsWithStr l (strL "+ ") then strL "✅ " ++ l.drop 2
  else if startsWithStr l (strL "  ") then strL "   " ++ l.drop 2
  else l

/-- The Cursor-friendly presentation transform applied to a diff. -/
def cursorFriendly (d : List Char) : List Char :=
  joinNl ((splitNl d).map friendlyLine)

/-- The fenced text block the handler pushes for a diff. -/
def mkDiffBlock (d : List Char) : List Char :=
  strL "```diff\n" ++ d ++ strL "\n```"

/-- Response content derived from an optional diff: nothing when no diff
is produced, else one fenced, presentation-transformed block. -/
def diffContentOf : Option (List Char) → List (List Char)
  | none => []
  | some d => [mkDiffBlock (cursorFriendly d)]

/-- Model of the `write` tool-call handler (src/mcp-server-sdk.js lines
633-713).  `existing` is the oracle result of reading the target file
(`none` models a non-existent file), `gen` the settled outcome of
`callCerebras`.  Returns the tool result (error messages carry the
`Failed to write code:` wrapper of the handler's catch) together with the
trace of effects: the target read, the provider call, and the file write.
File writes are assumed to succeed. -/
def handleWrite (file_path prompt : Option (List Char))
    (existing : Option (List Char)) (gen : Except (List Char) (List Char)) :
    Except (List Char) (List (List Char)) × List Eff :=
  if jsFalsyS prompt then
    (Except.error (strL "Failed to write code: Prompt is required for write tool"), [])
  else if jsFalsyS file_path then
    (Except.error (strL "Failed to write code: file_path is required for write tool"), [])
  else
    let fp := file_path.getD []
    let isEdit := existing.isSome
    match gen with
    | Except.error e =>
      (Except.error (strL "Failed to write code: " ++ e), [Eff.readTarget, Eff.provider])
    | Except.ok result =>
      let cleanResult := cleanCodeResponse result
      let content :=
        if isEdit && !(existing == some []) then
          diffContentOf (generateGitDiff (some (cleanCodeResponse (existing.getD []))) cleanResult fp)
        else if !isEdit then
          diffContentOf (generateGitDiff none cleanResult fp)
        else []
      (Except.ok content, [Eff.readTarget, Eff.provider, Eff.writeTarget])

/-- Whether the string contains a triple backtick anywhere. -/
def hasTicks : List Char → Bool
  | [] => false
  | c :: cs => startsWith3 (c :: cs) || hasTicks cs

/-- Whether the string ends with a backtick. -/
def endsTick : List Char → Bool
  | [] => false
  | [c] => c = tick
  | _ :: rest => endsTick rest

theorem hasTicks_cons (c : Char) (cs : List Char) :
    hasTicks (c :: cs) = (startsWith3 (c :: cs) || hasTicks cs) := rfl

theorem firstCapture_eq_none (s : List Char) (h : hasTicks s = false) :
    firstCapture s = none := by
  induction s with
  | nil => rfl
  | cons c cs ih =>
    rw [hasTicks_cons, Bool.or_eq_false_iff] at h
    simp only [firstCapture, h.1, Bool.false_eq_true, if_false]
    exact ih h.2

theorem replaceFenceOpenF_id (f : Nat) :
    ∀ s : List Char, hasTicks s = false → replaceFenceOpenF f s = s := by
  induction f with
  | zero => intro s _; cases s <;> rfl
  | succ f ih =>
    intro s h
    cases s with
    | nil => rfl
    | cons c cs =>
      rw [hasTicks_cons, Bool.or_eq_false_iff] at h
      simp only [replaceFenceOpenF, h.1, Bool.false_eq_true, if_false]
      rw [ih cs h.2]

theorem replaceFenceOpen_id (s : List Char) (h : hasTicks s = false) :
    replaceFenceOpen s = s := replaceFenceOpenF_id _ s h

theorem replaceFenceBareF_id (f : Nat) :
    ∀ s : List Char, hasTicks s = false → replaceFenceBareF f s = s := by
  induction f with
  | zero => intro s _; cases s <;> rfl
  | succ f ih =>
    intro s h
    cases s with
    | nil => rfl
    | cons c cs =>
      rw [hasTicks_cons, Bool.or_eq_false_iff] at h
      simp only [replaceFenceBareF, h.1, Bool.false_eq_true, if_false]
      rw [ih cs h.2]

theorem replaceFenceBare_id (s : List Char) (h : hasTicks s = false) :
    replaceFenceBare s = s := replaceFenceBareF_id _ s h

theorem splitOnC_ne_nil (sep : Char) (s : List Char) : splitOnC sep s ≠ [] := by
  cases s with
  | nil => simp [splitOnC]
  | cons c cs =>
    by_cases h : c = sep
    · simp [splitOnC, h]
    · simp only [splitOnC, h, if_false]
      cases hs : splitOnC sep cs <;> simp

/-- Claim C1 fails on the code: a clean, unfenced text whose single line
is a bare alphabetic token is not returned unchanged — the fallback path
of `cleanCodeResponse` deletes it, returning the empty string. -/
theorem c1_counterexample :
    cleanCodeResponse (strL "hello") = [] ∧ cleanCodeResponse (strL "hello") ≠ strL "hello" := by
  constructor <;> decide

/-- Claim C1 (amended): for every string `T` with no fence delimiter,
`cleanCodeResponse` returns `T` unchanged provided `T` carries no leading
or trailing whitespace (the sanitizer always trims) and the first line of
`T`, trimmed, is not a bare run of letters or `#` (the sanitizer drops
such a line). -/
theorem c1_sanitize_clean_id (T : List Char)
    (hticks : hasTicks T = false)
    (htrim : jsTrim T = T)
    (hline : isLangTag (jsTrim ((splitNl T).headD [])) = false) :
    cleanCodeResponse T = T := by
  by_cases hT : T = []
  · subst hT; rfl
  · unfold cleanCodeResponse
    simp only [hT, if_false]
    rw [firstCapture_eq_none T hticks]
    rw [replaceFenceOpen_id T hticks, replaceFenceBare_id T hticks, htrim]
    unfold stripLangTag
    cases hs : splitNl T with
    | nil => rfl
    | cons l0 rest =>
      have : (splitNl T).headD [] = l0 := by rw [hs]; rfl
      rw [this] at hline
      simp only [hline, Bool.false_eq_true, if_false]

/-- Witness for the amended claim C1 at a concrete clean input. -/
theorem c1_sanitize_clean_id_witness :
    cleanCodeResponse (strL "foo bar\nbaz") = strL "foo bar\nbaz" :=
  c1_sanitize_clean_id (strL "foo bar\nbaz") (by decide) (by decide) (by decide)

/-- Claim C9: the path-normalization step of `readFileContent` and that of
`writeFileContent` are the same function of (raw path, home directory,
working directory) — the source duplicates the block verbatim. -/
theorem c9_read_write_resolve_eq :
    ∀ p home cwd : List Char,
      readFileContentResolve p home cwd = writeFileContentResolve p home cwd :=
  fun _ _ _ => rfl

/-- Claim C8 fails on the code: a home-relative context entry (`~/f`)
denoting the same file as the absolute target (`/home/u/f`) — the read
and write operations resolve both to the same absolute path — survives
the filter, because `path.resolve` does not expand `~`. -/
theorem c8_counterexample :
    readFileContentResolve (strL "~/f") (strL "/home/u") (strL "/w")
      = readFileContentResolve (strL "/home/u/f") (strL "/home/u") (strL "/w")
    ∧ filterContextFiles [strL "~/f"] (strL "/home/u/f") (strL "/w") = [strL "~/f"] := by
  constructor <;> decide

/-- Claim C8 (amended): a context entry is excluded exactly when its
`path.resolve` against the working directory equals the target's — this
covers absolute and working-directory-relative path forms, but not
home-relative (`~`) forms, which `path.resolve` does not expand. -/
theorem c8_filter_amended :
    ∀ (ctx : List (List Char)) (out cwd f : List Char),
      f ∈ filterContextFiles ctx out cwd ↔
        f ∈ ctx ∧ pathResolve1 cwd f ≠ pathResolve1 cwd out := by
  intro ctx out cwd f
  simp [filterContextFiles, List.mem_filter]

/-- Claim C7: a `write` call with a falsy (absent or empty) prompt or
file path fails with an error and performs no effect at all: no target
read, no provider call, no file write. -/
theorem c7_validation :
    ∀ (fp prompt existing : Option (List Char)) (gen : Except (List Char) (List Char)),
      jsFalsyS prompt = true ∨ jsFalsyS fp = true →
      (∃ m, (handleWrite fp prompt existing gen).1 = Except.error m) ∧
      (handleWrite fp prompt existing gen).2 = [] := by
  intro fp prompt existing gen h
  cases hp : jsFalsyS prompt with
  | true =>
    unfold handleWrite
    simp [hp]
  | false =>
    have hf : jsFalsyS fp = true := by
      rcases h with h | h
      · rw [hp] at h; exact absurd h (by simp)
      · exact h
    unfold handleWrite
    simp [hp, hf]

/-- Witness for claim C7: an absent prompt is rejected with no effects. -/
theorem c7_validation_witness :
    (∃ m, (handleWrite (some (strL "/tmp/f")) none none (Except.ok (strL "x"))).1
        = Except.error m) ∧
    (handleWrite (some (strL "/tmp/f")) none none (Except.ok (strL "x"))).2 = [] :=
  c7_validation (some (strL "/tmp/f")) none none (Except.ok (strL "x")) (Or.inl (by decide))

/-- Claim C2 fails on the code: with no primary credential and a failing
secondary, the secondary provider is attempted twice — the error of the
first fallback attempt reaches the outer catch of `callCerebras`, which
calls `callOpenRouter` again. -/
theorem c2_counterexample :
    ¬ ((callCerebrasM ⟨false, true⟩ (Outcome.err (strL "primary down"))
        (fun _ => Outcome.err (strL "secondary down"))).2.count Att.secondary ≤ 1) := by
  decide

/-- Claim C2 (amended): per generation call the primary provider is
attempted at most once and the secondary at most twice; a second
secondary attempt happens only when the secondary key is configured and
the first secondary attempt failed. -/
theorem c2_failover_amended :
    ∀ (cfg : ProviderCfg) (prim : Outcome) (sec : Nat → Outcome),
      (callCerebrasM cfg prim sec).2.count Att.secondary ≤ 2 ∧
      (callCerebrasM cfg prim sec).2.count Att.primary ≤ 1 ∧
      ((callCerebrasM cfg prim sec).2.count Att.secondary = 2 →
        cfg.openRouterKey = true ∧ ∃ m, sec 0 = Outcome.err m) := by
  intro cfg prim sec
  obtain ⟨ck, orq⟩ := cfg
  cases ck with
  | false =>
    cases orq with
    | false =>
      refine ⟨?_, ?_, ?_⟩ <;>
        (simp [callCerebrasM, callOpenRouterM]; try decide)
    | true =>
      cases h0 : sec 0 with
      | ok s =>
        refine ⟨?_, ?_, ?_⟩ <;>
          (simp [callCerebrasM, callOpenRouterM, h0]; try decide)
      | err m =>
        cases h1 : sec 1 with
        | ok s =>
          refine ⟨?_, ?_, fun _ => ⟨rfl, m, rfl⟩⟩ <;>
            (simp [callCerebrasM, callOpenRouterM, h0, h1]; try decide)
        | err m2 =>
          refine ⟨?_, ?_, fun _ => ⟨rfl, m, rfl⟩⟩ <;>
            (simp [callCerebrasM, callOpenRouterM, h0, h1]; try decide)
  | true =>
    cases prim with
    | ok s =>
      refine ⟨?_, ?_, fun h => absurd h (by simp [callCerebrasM]; decide)⟩ <;>
        (simp [callCerebrasM]; try decide)
    | err m =>
      cases orq with
      | false =>
        refine ⟨?_, ?_, ?_⟩ <;>
          (simp [callCerebrasM, callOpenRouterM]; try decide)
      | true =>
        cases h0 : sec 0 with
        | ok s =>
          refine ⟨?_, ?_, ?_⟩ <;>
            (simp [callCerebrasM, callOpenRouterM, h0]; try decide)
        | err m2 =>
          cases h1 : sec 1 with
          | ok s =>
            refine ⟨?_, ?_, fun _ => ⟨rfl, m2, rfl⟩⟩ <;>
              (simp [callCerebrasM, callOpenRouterM, h0, h1]; try decide)
          | err m3 =>
            refine ⟨?_, ?_, fun _ => ⟨rfl, m2, rfl⟩⟩ <;>
              (simp [callCerebrasM, callOpenRouterM, h0, h1]; try decide)

/-- Witness for the amended claim C2 at a concrete configuration. -/
theorem c2_failover_amended_witness :
    (callCerebrasM ⟨true, true⟩ (Outcome.ok (strL "code")) (fun _ => Outcome.ok (strL "code"))).2.count Att.secondary ≤ 2 ∧
    (callCerebrasM ⟨true, true⟩ (Outcome.ok (strL "code")) (fun _ => Outcome.ok (strL "code"))).2.count Att.primary ≤ 1 ∧
    ((callCerebrasM ⟨true, true⟩ (Outcome.ok (strL "code")) (fun _ => Outcome.ok (strL "code"))).2.count Att.secondary = 2 →
      (ProviderCfg.mk true true).openRouterKey = true ∧ ∃ m, (fun _ : Nat => Outcome.ok (strL "code")) 0 = Outcome.err m) :=
  c2_failover_amended ⟨true, true⟩ (Outcome.ok (strL "code")) (fun _ => Outcome.ok (strL "code"))

theorem splitOnC_nosep (sep : Char) :
    ∀ p : List Char, p.all (fun c => !(c = sep)) = true → splitOnC sep p = [p] := by
  intro p
  induction p with
  | nil => intro _; rfl
  | cons c cs ih =>
    intro h
    rw [List.all_cons, Bool.and_eq_true] at h
    have hc : ¬ (c = sep) := by simpa using h.1
    simp only [splitOnC]
    rw [if_neg hc, ih h.2]

theorem splitOnC_append (sep : Char) :
    ∀ p r : List Char, p.all (fun c => !(c = sep)) = true →
      splitOnC sep (p ++ sep :: r) = p :: splitOnC sep r := by
  intro p
  induction p with
  | nil =>
    intro r _
    simp [splitOnC]
  | cons c cs ih =>
    intro r h
    rw [List.all_cons, Bool.and_eq_true] at h
    have hc : ¬ (c = sep) := by simpa using h.1
    have hstep : (c :: cs) ++ sep :: r = c :: (cs ++ sep :: r) := rfl
    rw [hstep]
    simp only [splitOnC]
    rw [if_neg hc, ih r h.2]

theorem splitOnC_joinC (sep : Char) :
    ∀ parts : List (List Char), parts ≠ [] →
      (∀ p ∈ parts, p.all (fun c => !(c = sep)) = true) →
      splitOnC sep (joinC sep parts) = parts := by
  intro parts
  induction parts with
  | nil => intro h _; exact absurd rfl h
  | cons p ps ih =>
    intro _ hall
    cases ps with
    | nil =>
      simp only [joinC]
      exact splitOnC_nosep sep p (hall p (by simp))
    | cons q qs =>
      have hj : joinC sep (p :: q :: qs) = p ++ sep :: joinC sep (q :: qs) := rfl
      rw [hj, splitOnC_append sep p _ (hall p (by simp))]
      rw [ih (by simp) (fun x hx => hall x (by simp [hx]))]

theorem splitOnC_elem_nosep (sep : Char) :
    ∀ s x : List Char, x ∈ splitOnC sep s → x.all (fun c => !(c = sep)) = true := by
  intro s
  induction s with
  | nil =>
    intro x hx
    simp only [splitOnC, List.mem_singleton] at hx
    subst hx; rfl
  | cons c cs ih =>
    intro x hx
    by_cases hc : c = sep
    · simp only [splitOnC, if_pos hc] at hx
      rcases List.mem_cons.mp hx with h | h
      · subst h; rfl
      · exact ih x h
    · simp only [splitOnC, if_neg hc] at hx
      cases hcs : splitOnC sep cs with
      | nil => exact absurd hcs (splitOnC_ne_nil sep cs)
      | cons l ls =>
        rw [hcs] at hx
        rcases List.mem_cons.mp hx with h | h
        · subst h
          rw [List.all_cons, Bool.and_eq_true]
          refine ⟨by simpa using hc, ?_⟩
          exact ih l (by rw [hcs]; exact List.mem_cons_self l ls)
        · exact ih x (by rw [hcs]; exact List.mem_cons_of_mem l h)

theorem splitOnC_elem_chars (sep : Char) :
    ∀ s x : List Char, x ∈ splitOnC sep s → ∀ c ∈ x, c ∈ s := by
  intro s
  induction s with
  | nil =>
    intro x hx c hc
    simp only [splitOnC, List.mem_singleton] at hx
    subst hx; simp at hc
  | cons a cs ih =>
    intro x hx c hc
    by_cases ha : a = sep
    · simp only [splitOnC, if_pos ha] at hx
      rcases List.mem_cons.mp hx with h | h
      · subst h; simp at hc
      · exact List.mem_cons_of_mem a (ih x h c hc)
    · simp only [splitOnC, if_neg ha] at hx
      cases hcs : splitOnC sep cs with
      | nil => exact absurd hcs (splitOnC_ne_nil sep cs)
      | cons l ls =>
        rw [hcs] at hx
        rcases List.mem_cons.mp hx with h | h
        · subst h
          rcases List.mem_cons.mp hc with h2 | h2
          · subst h2; exact List.mem_cons_self c cs
          · refine List.mem_cons_of_mem a (ih l ?_ c h2)
            rw [hcs]; exact List.mem_cons_self l ls
        · refine List.mem_cons_of_mem a (ih x ?_ c hc)
          rw [hcs]; exact List.mem_cons_of_mem l h

theorem getLastD_mem (L : List (List Char)) (d : List Char) (h : L ≠ []) :
    L.getLastD d ∈ L := by
  induction L generalizing d with
  | nil => exact absurd rfl h
  | cons x xs ih =>
    cases xs with
    | nil => simp [List.getLastD]
    | cons y ys =>
      have hm := ih (d := x) (by simp)
      rw [List.getLastD_cons]
      exact List.mem_cons_of_mem x hm

theorem noNl_of_mem (x full : List Char) (hsub : ∀ c ∈ x, c ∈ full)
    (h : noNl full = true) : noNl x = true := by
  rw [noNl, List.all_eq_true] at *
  intro c hc
  exact h c (hsub c hc)

theorem noNl_lastComponent (fp : List Char) (h : noNl fp = true) :
    noNl (lastComponent fp) = true := by
  unfold lastComponent
  refine noNl_of_mem _ fp ?_ h
  exact splitOnC_elem_chars '/' fp _ (getLastD_mem _ _ (splitOnC_ne_nil '/' fp))

theorem isDigitC_digitChar (n : Nat) (h : n < 10) : isDigitC (digitChar n) = true := by
  interval_cases n <;> decide

theorem natDigitsF_digits :
    ∀ f n : Nat, (natDigitsF f n).all isDigitC = true := by
  intro f
  induction f with
  | zero => intro n; rfl
  | succ f ih =>
    intro n
    by_cases h : n < 10
    · simp only [natDigitsF, if_pos h, List.all_cons, List.all_nil, Bool.and_true]
      exact isDigitC_digitChar n h
    · simp only [natDigitsF, if_neg h, List.all_append, Bool.and_eq_true]
      refine ⟨ih (n / 10), ?_⟩
      simp only [List.all_cons, List.all_nil, Bool.and_true]
      exact isDigitC_digitChar (n % 10) (Nat.mod_lt n (by omega))

theorem natDigits_digits (n : Nat) : (natDigits n).all isDigitC = true :=
  natDigitsF_digits (n + 1) n

theorem noNl_of_digits (l : List Char) (h : l.all isDigitC = true) :
    noNl l = true := by
  rw [noNl, List.all_eq_true]
  rw [List.all_eq_true] at h
  intro c hc
  have hd := h c hc
  by_cases hcn : c = '\n'
  · subst hcn; exact absurd hd (by decide)
  · simp [hcn]

theorem noNl_append (a b : List Char) :
    noNl (a ++ b) = (noNl a && noNl b) := by
  simp [noNl, List.all_append]

/-- Claim C4: for non-empty new content, the creation diff is one hunk
whose header reads `@@ -0,0 +1,L @@` with `L` the number of
newline-separated lines of the new content, and whose body tags every
line of the new content as added. -/
theorem c4_creation_diff (N fp : List Char) (hN : N ≠ []) (hfp : noNl fp = true) :
    generateGitDiff none N fp = some (creationDiff N fp) ∧
    splitNl (creationDiff N fp)
      = [strL "diff --git a/" ++ lastComponent fp ++ strL " b/" ++ lastComponent fp,
         strL "new file mode 100644",
         strL "--- /dev/null",
         strL "+++ b/" ++ lastComponent fp,
         strL "@@ -0,0 +1," ++ natDigits (splitNl N).length ++ strL " @@"] ++
        (splitNl N).map (fun l => '+' :: l) := by
  constructor
  · unfold generateGitDiff
    rw [if_neg hN]
  · unfold creationDiff splitNl joinNl
    have hfn : noNl (lastComponent fp) = true := noNl_lastComponent fp hfp
    refine splitOnC_joinC '\n' _ (by simp) ?_
    intro p hp
    have hnum : noNl (natDigits (splitOnC '\n' N).length) = true :=
      noNl_of_digits _ (natDigits_digits _)
    simp only [List.mem_append, List.mem_cons, List.mem_singleton, List.mem_map,
      List.not_mem_nil, or_false] at hp
    rcases hp with (h | h | h | h | h) | ⟨l, hl, rfl⟩
    · subst h
      have : noNl (strL "diff --git a/" ++ lastComponent fp ++ strL " b/" ++ lastComponent fp) = true := by
        rw [noNl_append, noNl_append, noNl_append, hfn]
        decide
      simpa [noNl] using this
    · subst h; decide
    · subst h; decide
    · subst h
      have : noNl (strL "+++ b/" ++ lastComponent fp) = true := by
        rw [noNl_append, hfn]; decide
      simpa [noNl] using this
    · subst h
      have : noNl (strL "@@ -0,0 +1," ++ natDigits (splitOnC '\n' N).length ++ strL " @@") = true := by
        rw [noNl_append, noNl_append, hnum]
        decide
      simpa [noNl] using this
    · have hl2 := splitOnC_elem_nosep '\n' N l hl
      simp only [List.all_cons, Bool.and_eq_true]
      exact ⟨by decide, hl2⟩

/-- Witness for claim C4 on concrete two-line content. -/
theorem c4_creation_diff_witness :
    generateGitDiff none (strL "a\nb") (strL "d/f.py") = some (creationDiff (strL "a\nb") (strL "d/f.py")) ∧
    splitNl (creationDiff (strL "a\nb") (strL "d/f.py"))
      = [strL "diff --git a/" ++ lastComponent (strL "d/f.py") ++ strL " b/" ++ lastComponent (strL "d/f.py"),
         strL "new file mode 100644",
         strL "--- /dev/null",
         strL "+++ b/" ++ lastComponent (strL "d/f.py"),
         strL "@@ -0,0 +1," ++ natDigits (splitNl (strL "a\nb")).length ++ strL " @@"] ++
        (splitNl (strL "a\nb")).map (fun l => '+' :: l) :=
  c4_creation_diff (strL "a\nb") (strL "d/f.py") (by decide) (by decide)

theorem digits_split (s r : List Char) (hs : s.all isDigitC = true)
    (hr : ∀ c cs, r = c :: cs → isDigitC c = false) :
    (s ++ r).takeWhile isDigitC = s ∧ (s ++ r).dropWhile isDigitC = r := by
  induction s with
  | nil =>
    constructor
    · cases r with
      | nil => rfl
      | cons c cs => simp [List.takeWhile, hr c cs rfl]
    · cases r with
      | nil => rfl
      | cons c cs => simp [List.dropWhile, hr c cs rfl]
  | cons a as ih =>
    rw [List.all_cons, Bool.and_eq_true] at hs
    have hih := ih hs.2
    constructor
    · simp [List.takeWhile, hs.1, hih.1]
    · simp [List.dropWhile, hs.1, hih.2]

theorem isDigits_ne_nil (l : List Char) (h : isDigits l = true) : ¬ (l = []) := by
  intro hl
  subst hl
  simp [isDigits] at h

theorem isDigits_all (l : List Char) (h : isDigits l = true) : l.all isDigitC = true := by
  rw [isDigits, Bool.and_eq_true] at h
  exact h.2

theorem parseHunkHeader_render (s1 b s3 d : List Char)
    (h1 : isDigits s1 = true) (hb : isDigits b = true)
    (h3 : isDigits s3 = true) (hd : isDigits d = true) :
    parseHunkHeader (mkHunkHeaderRaw s1 (some b) s3 (some d))
      = some (s1, some b, s3, some d) := by
  have e1 : strL "@@ -" = '@' :: '@' :: ' ' :: '-' :: [] := rfl
  have e2 : strL " +" = ' ' :: '+' :: [] := rfl
  have e3 : strL " @@" = ' ' :: '@' :: '@' :: [] := rfl
  have hshape : mkHunkHeaderRaw s1 (some b) s3 (some d)
      = '@' :: '@' :: ' ' :: '-' ::
        (s1 ++ ',' :: (b ++ ' ' :: '+' :: (s3 ++ ',' :: (d ++ ' ' :: '@' :: '@' :: [])))) := by
    simp [mkHunkHeaderRaw, e1, e2, e3, List.append_assoc]
  rw [hshape]
  have t1 := digits_split s1
    (',' :: (b ++ ' ' :: '+' :: (s3 ++ ',' :: (d ++ ' ' :: '@' :: '@' :: []))))
    (isDigits_all s1 h1) (by intro c cs hEq; cases hEq; decide)
  have t2 := digits_split b
    (' ' :: '+' :: (s3 ++ ',' :: (d ++ ' ' :: '@' :: '@' :: [])))
    (isDigits_all b hb) (by intro c cs hEq; cases hEq; decide)
  have t3 := digits_split s3
    (',' :: (d ++ ' ' :: '@' :: '@' :: []))
    (isDigits_all s3 h3) (by intro c cs hEq; cases hEq; decide)
  have t4 := digits_split d
    (' ' :: '@' :: '@' :: []) (isDigits_all d hd)
    (by intro c cs hEq; cases hEq; decide)
  simp only [parseHunkHeader, t1.1, t1.2, t2.1, t2.2, t3.1, t3.2, t4.1, t4.2,
    isDigits_ne_nil s1 h1, isDigits_ne_nil b hb, isDigits_ne_nil s3 h3, isDigits_ne_nil d hd]
  simp [isDigits_ne_nil s1 h1, isDigits_ne_nil b hb, isDigits_ne_nil s3 h3, isDigits_ne_nil d hd]

theorem splitNl_head_cons (c : Char) (hc : ¬ c = '\n') (s : List Char) :
    ∃ l0 ls, splitOnC '\n' (c :: s) = (c :: l0) :: ls := by
  simp only [splitOnC, if_neg hc]
  cases hs : splitOnC '\n' s with
  | nil => exact absurd hs (splitOnC_ne_nil '\n' s)
  | cons l ls => exact ⟨l, ls, rfl⟩

theorem processPatchLines_map (lines : List (List Char))
    (h : ∀ l0 ls, lines = l0 :: ls → startsWithStr l0 (strL "diff --git") = false) :
    processPatchLines lines = lines.map fixLine := by
  cases lines with
  | nil => rfl
  | cons l0 ls =>
    simp only [processPatchLines, h l0 ls rfl, Bool.false_eq_true, if_false, List.map_cons]
    rfl

theorem createPatch_head (fileName oldStr newStr oldHeader newHeader : List Char) :
    ∃ t, createPatch fileName oldStr newStr oldHeader newHeader = 'I' :: t := by
  refine ⟨strL "ndex: " ++ fileName ++ '\n' ::
    joinNl (eqLine :: (strL "--- " ++ fileName ++ '\t' :: oldHeader) ::
      (strL "+++ " ++ fileName ++ '\t' :: newHeader) ::
      ((structuredHunks oldStr newStr).flatMap (fun h => hunkHeaderLine h :: h.lines) ++ [[]])), ?_⟩
  rfl

/-- Claim C5: for every modification diff, the returned string is exactly
the jsdiff patch with every line passed through the header correction
`fixLine`, and `fixLine` maps any unified hunk header `@@ -a,b +c,d @@`
to `@@ -(a+4),b +(c+4),d @@`: both start offsets are increased by exactly
4 while both counts are preserved verbatim. -/
theorem c5_hunk_header_shift :
    (∀ o n fp : List Char, ¬ o = [] → ¬ n = [] →
      generateGitDiff (some o) n fp
        = some (joinNl ((splitNl (createPatch (lastComponent fp) o n
            (strL "a/" ++ lastComponent fp) (strL "b/" ++ lastComponent fp))).map fixLine)))
    ∧ (∀ s1 b s3 d : List Char,
        isDigits s1 = true → isDigits b = true → isDigits s3 = true → isDigits d = true →
        fixLine (mkHunkHeaderRaw s1 (some b) s3 (some d))
          = mkHunkHeaderRaw (natDigits (digitsToNat s1 + 4)) (some b)
              (natDigits (digitsToNat s3 + 4)) (some d)) := by
  constructor
  · intro o n fp ho hn
    unfold generateGitDiff
    rw [if_neg hn]
    simp only [ho, if_false]
    congr 1
    congr 1
    apply processPatchLines_map
    intro l0 ls hsplit
    obtain ⟨t, ht⟩ := createPatch_head (lastComponent fp) o n
      (strL "a/" ++ lastComponent fp) (strL "b/" ++ lastComponent fp)
    rw [ht] at hsplit
    obtain ⟨l0x, lsx, hx⟩ := splitNl_head_cons 'I' (by decide) t
    rw [splitNl] at hsplit
    rw [hx] at hsplit
    have hl0 : l0 = 'I' :: l0x := (List.cons.injEq _ _ _ _ ▸ hsplit).1.symm
    rw [hl0]
    have ed : strL "diff --git" = 'd' :: strL "iff --git" := rfl
    rw [ed]
    simp [startsWithStr]
  · intro s1 b s3 d h1 hb h3 hd
    unfold fixLine
    rw [parseHunkHeader_render s1 b s3 d h1 hb h3 hd]

/-- Witness for claim C5: concrete modification diff and concrete header
shift. -/
theorem c5_hunk_header_shift_witness :
    generateGitDiff (some (strL "a")) (strL "b") (strL "f")
      = some (joinNl ((splitNl (createPatch (lastComponent (strL "f")) (strL "a") (strL "b")
          (strL "a/" ++ lastComponent (strL "f")) (strL "b/" ++ lastComponent (strL "f")))).map fixLine))
    ∧ fixLine (mkHunkHeaderRaw (strL "1") (some (strL "2")) (strL "3") (some (strL "4")))
      = mkHunkHeaderRaw (natDigits (digitsToNat (strL "1") + 4)) (some (strL "2"))
          (natDigits (digitsToNat (strL "3") + 4)) (some (strL "4")) :=
  ⟨c5_hunk_header_shift.1 (strL "a") (strL "b") (strL "f") (by decide) (by decide),
   c5_hunk_header_shift.2 (strL "1") (strL "2") (strL "3") (strL "4")
     (by decide) (by decide) (by decide) (by decide)⟩

theorem diffOpsF_keep (f : Nat) :
    ∀ x : List (List Char), x.length < f → diffOpsF f x x = x.map DOp.keep := by
  induction f with
  | zero => intro x hx; omega
  | succ f ih =>
    intro x hx
    cases x with
    | nil => rfl
    | cons a as =>
      have hstep : diffOpsF (f + 1) (a :: as) (a :: as) = DOp.keep a :: diffOpsF f as as := by
        simp [diffOpsF]
      rw [hstep, List.map_cons, ih as (by simpa using Nat.lt_of_succ_lt_succ hx)]

theorem diffOps_self (x : List (List Char)) : diffOps x x = x.map DOp.keep := by
  unfold diffOps
  exact diffOpsF_keep _ x (by omega)

theorem groupOps_keep_ctx (x : List (List Char)) :
    ∀ p ∈ groupOps (x.map DOp.keep), p.ptype = PType.ctx := by
  induction x with
  | nil => intro p hp; simp [groupOps] at hp
  | cons a as ih =>
    intro p hp
    simp only [List.map_cons, groupOps] at hp
    cases hg : groupOps (as.map DOp.keep) with
    | nil =>
      rw [hg] at hp
      simp only [List.mem_singleton] at hp
      subst hp; rfl
    | cons q qs =>
      rw [hg] at hp
      dsimp only at hp
      have hq : q.ptype = PType.ctx := ih q (by rw [hg]; exact List.mem_cons_self q qs)
      by_cases hcond : q.ptype = opKind (DOp.keep a)
      · rw [if_pos hcond] at hp
        rcases List.mem_cons.mp hp with h | h
        · subst h; exact hq
        · exact ih p (by rw [hg]; exact List.mem_cons_of_mem q h)
      · rw [if_neg hcond] at hp
        rcases List.mem_cons.mp hp with h | h
        · subst h; rfl
        · exact ih p (by rw [hg]; exact h)

theorem buildLoop_all_ctx (total : Nat) (e1 e2 e3 : Bool) :
    ∀ (parts : List Part), (∀ p ∈ parts, p.ptype = PType.ctx) →
      ∀ (i : Nat) (prev : Option (List (List Char))) (cur : List (List Char))
        (oldLine newLine : Nat),
      buildLoop total e1 e2 e3 parts i prev 0 0 cur oldLine newLine [] = [] := by
  intro parts
  induction parts with
  | nil => intro _ i prev cur ol nl; rfl
  | cons p ps ih =>
    intro hall i prev cur ol nl
    have hp : p.ptype = PType.ctx := hall p (List.mem_cons_self p ps)
    simp only [buildLoop, hp]
    simp only [ne_eq, not_true_eq_false, if_false]
    exact ih (fun q hq => hall q (List.mem_cons_of_mem p hq)) _ _ _ _ _

theorem structuredHunks_self (o : List Char) : structuredHunks o o = [] := by
  unfold structuredHunks
  rw [diffOps_self]
  apply buildLoop_all_ctx
  intro p hp
  rcases List.mem_append.mp hp with h | h
  · exact groupOps_keep_ctx _ p h
  · simp only [List.mem_singleton] at h
    subst h; rfl

theorem fixLine_id_of_head (a b c d : Char) (r : List Char)
    (h : (a = '@' && b = '@' && c = ' ' && d = '-') = false) :
    fixLine (a :: b :: c :: d :: r) = a :: b :: c :: d :: r := by
  have hp : parseHunkHeader (a :: b :: c :: d :: r) = none := by
    simp only [parseHunkHeader, h, Bool.false_eq_true, if_false]
  simp [fixLine, hp]

theorem generateGitDiff_empty_new (old : Option (List Char)) (fp : List Char) :
    generateGitDiff old [] fp = none := by
  unfold generateGitDiff
  simp

/-- Claim C3 fails on the code for identical non-empty contents: the
modification branch always returns a patch string — for equal contents a
header-only patch — never the absent value. -/
theorem c3_counterexample :
    generateGitDiff (some (strL "a")) (strL "a") (strL "f") ≠ none := by
  decide

/-- Claim C3 (amended): no diff is produced when the new content is empty
or absent, and the tool call then returns an empty result; but for equal
non-empty old and new contents the synthesizer returns a header-only
patch with no hunks (not absent). -/
theorem c3_diff_absent_amended :
    (∀ (old : Option (List Char)) (fp : List Char), generateGitDiff old [] fp = none)
    ∧ (∀ o fp : List Char, ¬ o = [] → noNl fp = true →
        generateGitDiff (some o) o fp
          = some (joinNl [strL "Index: " ++ lastComponent fp, eqLine,
              strL "--- " ++ lastComponent fp ++ '\t' :: (strL "a/" ++ lastComponent fp),
              strL "+++ " ++ lastComponent fp ++ '\t' :: (strL "b/" ++ lastComponent fp), []]))
    ∧ (∀ (fp prompt existing : Option (List Char)) (r : List Char),
        jsFalsyS fp = false → jsFalsyS prompt = false → cleanCodeResponse r = [] →
        (handleWrite fp prompt existing (Except.ok r)).1 = Except.ok []) := by
  refine ⟨generateGitDiff_empty_new, ?_, ?_⟩
  · intro o fp ho hfp
    unfold generateGitDiff
    rw [if_neg ho]
    simp only [ho, if_false]
    have hfn : noNl (lastComponent fp) = true := noNl_lastComponent fp hfp
    have hpatch : createPatch (lastComponent fp) o o
        (strL "a/" ++ lastComponent fp) (strL "b/" ++ lastComponent fp)
        = joinNl [strL "Index: " ++ lastComponent fp, eqLine,
            strL "--- " ++ lastComponent fp ++ '\t' :: (strL "a/" ++ lastComponent fp),
            strL "+++ " ++ lastComponent fp ++ '\t' :: (strL "b/" ++ lastComponent fp), []] := by
      unfold createPatch createPatchLines
      rw [structuredHunks_self]
      rfl
    rw [hpatch]
    have hlines : splitNl (joinNl [strL "Index: " ++ lastComponent fp, eqLine,
        strL "--- " ++ lastComponent fp ++ '\t' :: (strL "a/" ++ lastComponent fp),
        strL "+++ " ++ lastComponent fp ++ '\t' :: (strL "b/" ++ lastComponent fp), []])
        = [strL "Index: " ++ lastComponent fp, eqLine,
            strL "--- " ++ lastComponent fp ++ '\t' :: (strL "a/" ++ lastComponent fp),
            strL "+++ " ++ lastComponent fp ++ '\t' :: (strL "b/" ++ lastComponent fp), []] := by
      apply splitOnC_joinC
      · simp
      · intro p hp
        simp only [List.mem_cons, List.mem_singleton, List.not_mem_nil, or_false] at hp
        rcases hp with h | h | h | h | h
        · subst h
          have : noNl (strL "Index: " ++ lastComponent fp) = true := by
            rw [noNl_append, hfn]; decide
          simpa [noNl] using this
        · subst h; decide
        · subst h
          have : noNl (strL "--- " ++ lastComponent fp ++ '\t' :: (strL "a/" ++ lastComponent fp)) = true := by
            rw [noNl_append, noNl_append, hfn]
            have h2 : noNl ('\t' :: (strL "a/" ++ lastComponent fp)) = true := by
              have h3 : ('\t' :: (strL "a/" ++ lastComponent fp)) = ('\t' :: strL "a/") ++ lastComponent fp := rfl
              rw [h3, noNl_append, hfn]; decide
            rw [h2]; decide
          simpa [noNl] using this
        · subst h
          have : noNl (strL "+++ " ++ lastComponent fp ++ '\t' :: (strL "b/" ++ lastComponent fp)) = true := by
            rw [noNl_append, noNl_append, hfn]
            have h2 : noNl ('\t' :: (strL "b/" ++ lastComponent fp)) = true := by
              have h3 : ('\t' :: (strL "b/" ++ lastComponent fp)) = ('\t' :: strL "b/") ++ lastComponent fp := rfl
              rw [h3, noNl_append, hfn]; decide
            rw [h2]; decide
          simpa [noNl] using this
        · subst h; decide
    rw [hlines]
    have hproc : processPatchLines [strL "Index: " ++ lastComponent fp, eqLine,
        strL "--- " ++ lastComponent fp ++ '\t' :: (strL "a/" ++ lastComponent fp),
        strL "+++ " ++ lastComponent fp ++ '\t' :: (strL "b/" ++ lastComponent fp), []]
        = [strL "Index: " ++ lastComponent fp, eqLine,
            strL "--- " ++ lastComponent fp ++ '\t' :: (strL "a/" ++ lastComponent fp),
            strL "+++ " ++ lastComponent fp ++ '\t' :: (strL "b/" ++ lastComponent fp), []] := by
      have eIdx : strL "Index: " ++ lastComponent fp
          = 'I' :: 'n' :: 'd' :: 'e' :: (strL "x: " ++ lastComponent fp) := rfl
      have eDash : strL "--- " ++ lastComponent fp ++ '\t' :: (strL "a/" ++ lastComponent fp)
          = '-' :: '-' :: '-' :: ' ' :: (lastComponent fp ++ '\t' :: (strL "a/" ++ lastComponent fp)) := rfl
      have ePlus : strL "+++ " ++ lastComponent fp ++ '\t' :: (strL "b/" ++ lastComponent fp)
          = '+' :: '+' :: '+' :: ' ' :: (lastComponent fp ++ '\t' :: (strL "b/" ++ lastComponent fp)) := rfl
      have eEq : eqLine = '=' :: '=' :: '=' :: '=' :: List.replicate 63 '=' := rfl
      rw [processPatchLines_map]
      · simp only [List.map_cons, List.map_nil]
        rw [eIdx, fixLine_id_of_head _ _ _ _ _ (by decide)]
        rw [eEq, fixLine_id_of_head _ _ _ _ _ (by decide)]
        rw [eDash, fixLine_id_of_head _ _ _ _ _ (by decide)]
        rw [ePlus, fixLine_id_of_head _ _ _ _ _ (by decide)]
        have : fixLine [] = [] := by decide
        rw [this]
      · intro l0 ls hEq
        have hl0 : l0 = strL "Index: " ++ lastComponent fp := (List.cons.injEq _ _ _ _ ▸ hEq).1.symm
        rw [hl0, eIdx]
        have ed : strL "diff --git" = 'd' :: strL "iff --git" := rfl
        rw [ed]
        simp [startsWithStr]
    rw [hproc]
  · intro fp prompt existing r hfp hprompt hr
    unfold handleWrite
    rw [hfp, hprompt]
    simp only [Bool.false_eq_true, if_false]
    rw [hr]
    cases existing with
    | none => simp [generateGitDiff_empty_new, diffContentOf]
    | some e =>
      by_cases he : e = []
      · subst he; simp [generateGitDiff_empty_new, diffContentOf]
      · simp [he, generateGitDiff_empty_new, diffContentOf]

/-- Witness for the amended claim C3 at concrete inputs. -/
theorem c3_diff_absent_amended_witness :
    generateGitDiff (some (strL "a")) [] (strL "f") = none
    ∧ generateGitDiff (some (strL "a")) (strL "a") (strL "f")
        = some (joinNl [strL "Index: " ++ lastComponent (strL "f"), eqLine,
            strL "--- " ++ lastComponent (strL "f") ++ '\t' :: (strL "a/" ++ lastComponent (strL "f")),
            strL "+++ " ++ lastComponent (strL "f") ++ '\t' :: (strL "b/" ++ lastComponent (strL "f")), []])
    ∧ (handleWrite (some (strL "f")) (some (strL "p")) none (Except.ok [])).1 = Except.ok [] :=
  ⟨c3_diff_absent_amended.1 (some (strL "a")) (strL "f"),
   c3_diff_absent_amended.2.1 (strL "a") (strL "f") (by decide) (by decide),
   c3_diff_absent_amended.2.2 (some (strL "f")) (some (strL "p")) none [] (by decide) (by decide) (by decide)⟩

theorem startsWith3_append_false (l r : List Char)
    (h1 : hasTicks l = false) (h2 : endsTick l = false) (hne : ¬ l = []) :
    startsWith3 (l ++ tick :: tick :: tick :: r) = false := by
  match l with
  | [] => exact absurd rfl hne
  | [a] =>
    have ha : ¬ a = tick := by
      intro hEq
      rw [hEq] at h2
      simp [endsTick] at h2
    simp [startsWith3, ha]
  | [a, b] =>
    have hb : ¬ b = tick := by
      intro hEq
      rw [hEq] at h2
      simp [endsTick] at h2
    simp [startsWith3, hb]
  | a :: b :: c :: t =>
    have hs : startsWith3 (a :: b :: c :: t) = false := by
      rw [hasTicks_cons, Bool.or_eq_false_iff] at h1
      exact h1.1
    simpa [startsWith3] using hs

theorem splitTicks_clean (B post : List Char)
    (h1 : hasTicks B = false) (h2 : endsTick B = false) :
    splitTicks (B ++ tick :: tick :: tick :: post) = some (B, post) := by
  induction B with
  | nil =>
    simp only [List.nil_append, splitTicks]
    rw [if_pos (by simp [startsWith3])]
    rfl
  | cons b bs ih =>
    have hs3 : startsWith3 ((b :: bs) ++ tick :: tick :: tick :: post) = false :=
      startsWith3_append_false (b :: bs) post h1 h2 (by simp)
    have hbs1 : hasTicks bs = false := by
      rw [hasTicks_cons, Bool.or_eq_false_iff] at h1
      exact h1.2
    have hbs2 : endsTick bs = false := by
      cases bs with
      | nil => rfl
      | cons q t => exact h2
    have hstep : (b :: bs) ++ tick :: tick :: tick :: post
        = b :: (bs ++ tick :: tick :: tick :: post) := rfl
    rw [hstep] at hs3 ⊢
    simp only [splitTicks, hs3, Bool.false_eq_true, if_false]
    rw [ih hbs1 hbs2]

theorem firstCapture_fence (pre : List Char)
    (h1 : hasTicks pre = false) (h2 : endsTick pre = false) :
    ∀ (rest cap post : List Char),
      splitTicks (afterOpenFence rest) = some (cap, post) →
      firstCapture (pre ++ tick :: tick :: tick :: rest) = some cap := by
  induction pre with
  | nil =>
    intro rest cap post hsplit
    simp only [List.nil_append, firstCapture]
    rw [if_pos (by simp [startsWith3])]
    simp only [List.drop]
    rw [hsplit]
  | cons p ps ih =>
    intro rest cap post hsplit
    have hs3 : startsWith3 ((p :: ps) ++ tick :: tick :: tick :: rest) = false :=
      startsWith3_append_false (p :: ps) rest h1 h2 (by simp)
    have hps1 : hasTicks ps = false := by
      rw [hasTicks_cons, Bool.or_eq_false_iff] at h1
      exact h1.2
    have hps2 : endsTick ps = false := by
      cases ps with
      | nil => rfl
      | cons q t => exact h2
    have hstep : (p :: ps) ++ tick :: tick :: tick :: rest
        = p :: (ps ++ tick :: tick :: tick :: rest) := rfl
    rw [hstep] at hs3 ⊢
    simp only [firstCapture, hs3, Bool.false_eq_true, if_false]
    exact ih hps1 hps2 rest cap post hsplit

theorem dropWhile_alpha_append (lang rest : List Char) (h : lang.all isAlphaC = true) :
    (lang ++ '\n' :: rest).dropWhile isAlphaC = '\n' :: rest := by
  induction lang with
  | nil => simp [List.dropWhile, isAlphaC]
  | cons a as ih =>
    rw [List.all_cons, Bool.and_eq_true] at h
    have hstep : (a :: as) ++ '\n' :: rest = a :: (as ++ '\n' :: rest) := rfl
    rw [hstep]
    simp only [List.dropWhile, h.1]
    exact ih h.2

/-- Claim C6 fails on the code: for the single-fenced-block input
`\x60\x60\x60\n#\ny\n\x60\x60\x60` with body `#\ny\n`, the sanitizer
returns `y` — it trims the body and drops the leading `#` line (the
implemented regex class is `[a-zA-Z#]+`, not alphabetic-only) — which is
neither the body nor the body with an alphabetic language tag removed. -/
theorem c6_counterexample :
    cleanCodeResponse (strL "```\n#\ny\n```") = strL "y"
    ∧ strL "y" ≠ strL "#\ny\n"
    ∧ strL "y" ≠ strL "y\n" := by
  refine ⟨by decide, by decide, by decide⟩

/-- Claim C6 (amended): for text containing exactly one fenced code block
with raw body `B` (the capture between the opening fence with its
language tag and newline, and the closing fence), the sanitizer returns
`B` trimmed of surrounding whitespace, with its first line removed and
the remainder re-trimmed when that line is a bare non-empty run of
letters and/or `#`. -/
theorem c6_fenced_block_amended (pre lang B post : List Char)
    (hpre1 : hasTicks pre = false) (hpre2 : endsTick pre = false)
    (hlang : lang.all isAlphaC = true)
    (hB1 : hasTicks B = false) (hB2 : endsTick B = false) :
    cleanCodeResponse (pre ++ strL "```" ++ lang ++ '\n' :: B ++ strL "```" ++ post)
      = stripLangTag (jsTrim B) := by
  have e3 : strL "```" = tick :: tick :: tick :: [] := rfl
  have hT : pre ++ strL "```" ++ lang ++ '\n' :: B ++ strL "```" ++ post
      = pre ++ tick :: tick :: tick :: (lang ++ '\n' :: (B ++ tick :: tick :: tick :: post)) := by
    rw [e3]
    simp [List.append_assoc]
  rw [hT]
  have hne : ¬ (pre ++ tick :: tick :: tick ::
      (lang ++ '\n' :: (B ++ tick :: tick :: tick :: post)) = []) := by
    cases pre <;> simp
  have hsplit : splitTicks (afterOpenFence (lang ++ '\n' :: (B ++ tick :: tick :: tick :: post)))
      = some (B, post) := by
    unfold afterOpenFence
    rw [dropWhile_alpha_append lang _ hlang]
    have hd : dropOptNl ('\n' :: (B ++ tick :: tick :: tick :: post))
        = B ++ tick :: tick :: tick :: post := by
      simp [dropOptNl]
    rw [hd]
    exact splitTicks_clean B post hB1 hB2
  have hcap := firstCapture_fence pre hpre1 hpre2
    (lang ++ '\n' :: (B ++ tick :: tick :: tick :: post)) B post hsplit
  unfold cleanCodeResponse
  rw [if_neg hne, hcap]

/-- Witness for the amended claim C6 at a concrete fenced input. -/
theorem c6_fenced_block_amended_witness :
    cleanCodeResponse ([] ++ strL "```" ++ strL "py" ++ '\n' :: strL "a b\nc" ++ strL "```" ++ [])
      = stripLangTag (jsTrim (strL "a b\nc")) :=
  c6_fenced_block_amended [] (strL "py") (strL "a b\nc") []
    (by decide) (by decide) (by decide) (by decide) (by decide)

/-- Claim C10: in the edit case the handler computes the reported diff
from the sanitized old content, `cleanCodeResponse(existingContent)`,
not the raw on-disk content — and there are inputs where sanitization
alters the old content and the two diffs differ, so the reported diff
does not describe the change made on disk. -/
theorem c10_diff_uses_sanitized_old :
    (∀ (fp prompt : Option (List Char)) (e r : List Char),
      jsFalsyS fp = false → jsFalsyS prompt = false → ¬ e = [] →
      (handleWrite fp prompt (some e) (Except.ok r)).1
        = Except.ok (diffContentOf (generateGitDiff (some (cleanCodeResponse e))
            (cleanCodeResponse r) (fp.getD []))))
    ∧ (cleanCodeResponse (strL "```\na b\nc d\n```") ≠ strL "```\na b\nc d\n```"
       ∧ generateGitDiff (some (cleanCodeResponse (strL "```\na b\nc d\n```")))
           (strL "a b\nc z") (strL "f")
         ≠ generateGitDiff (some (strL "```\na b\nc d\n```")) (strL "a b\nc z") (strL "f")) := by
  constructor
  · intro fp prompt e r hfp hprompt he
    unfold handleWrite
    rw [hfp, hprompt]
    simp only [Bool.false_eq_true, if_false]
    have hbe : ((some e : Option (List Char)) == some []) = false := by
      simp [he]
    simp [hbe]
  · exact ⟨by decide, by decide⟩

/-- Witness for claim C10: a concrete edit call whose reported diff is the
one computed from the sanitized old content. -/
theorem c10_diff_uses_sanitized_old_witness :
    (handleWrite (some (strL "f")) (some (strL "p")) (some (strL "x y"))
        (Except.ok (strL "z w"))).1
      = Except.ok (diffContentOf (generateGitDiff (some (cleanCodeResponse (strL "x y")))
          (cleanCodeResponse (strL "z w")) ((some (strL "f")).getD []))) :=
  c10_diff_uses_sanitized_old.1 (some (strL "f")) (some (strL "p")) (strL "x y") (strL "z w")
    (by decide) (by decide) (by decide)

end CerebrasMcp
